import Mathlib

/-!
Verification of the poker hand-evaluation program (`poker.py`).

The source is shallowly embedded: Python 2-character card tokens become
`List Char`, a scrubbed card `(rank, suit)` becomes `Nat × Nat`, hands become
lists of cards, and every fallible Python operation (dict `KeyError`,
comparison `TypeError`, `max` on an empty sequence) is modelled with `Option`,
`none` standing for the raised exception.  Each detector's imperative loop over
`reversed(hand)` with mutable streak state becomes a recursive function over
`hand.reverse` with the state passed explicitly.
-/

/-- A scrubbed card: `(rank, suit)` exactly as produced by `scrub_hand`. -/
abbrev Card : Type := Nat × Nat

/-- Hand-category constant `HIGH_CARD = 0` from the source. -/
def HIGH_CARD : Nat := 0

/-- Hand-category constant `ONE_PAIR = 1` from the source. -/
def ONE_PAIR : Nat := 1

/-- Hand-category constant `TWO_PAIR = 2` from the source. -/
def TWO_PAIR : Nat := 2

/-- Hand-category constant `THREE_OK = 3` from the source. -/
def THREE_OK : Nat := 3

/-- Hand-category constant `STRAIGHT = 4` from the source. -/
def STRAIGHT : Nat := 4

/-- Hand-category constant `FLUSH = 5` from the source. -/
def FLUSH : Nat := 5

/-- Hand-category constant `FULL_H = 6` from the source. -/
def FULL_H : Nat := 6

/-- Hand-category constant `FOUR_OK = 7` from the source. -/
def FOUR_OK : Nat := 7

/-- Hand-category constant `STRAIGHT_FL = 8` from the source. -/
def STRAIGHT_FL : Nat := 8

/-- Hand-category constant `ROYAL_FL = 9` from the source. -/
def ROYAL_FL : Nat := 9

/-- Constant `LOW_ACE = 0` from the source: the rank given to the synthetic
low-ace card inserted by `low_aces`. -/
def LOW_ACE : Nat := 0

/-- The `card_ranks` dictionary of the source: rank character to rank value;
`none` models a `KeyError`.  Note that the source's dictionary also contains
the entry `"1": 1`. -/
def card_ranks (c : Char) : Option Nat :=
  if c = 'A' then some 14
  else if c = 'K' then some 13
  else if c = 'Q' then some 12
  else if c = 'J' then some 11
  else if c = 'T' then some 10
  else if c = '9' then some 9
  else if c = '8' then some 8
  else if c = '7' then some 7
  else if c = '6' then some 6
  else if c = '5' then some 5
  else if c = '4' then some 4
  else if c = '3' then some 3
  else if c = '2' then some 2
  else if c = '1' then some 1
  else none

/-- The `suits` dictionary of the source; `none` models a `KeyError`. -/
def suits (c : Char) : Option Nat :=
  if c = 'C' then some 0
  else if c = 'S' then some 1
  else if c = 'D' then some 2
  else if c = 'H' then some 3
  else none

/-- Lookup of `x[0:-1]` (all but the last character of a token) in
`card_ranks`: the dictionary's keys are single characters, so any other
rank substring raises `KeyError` (modelled `none`). -/
def rankKey : List Char → Option Nat
  | [c] => card_ranks c
  | _ => none

/-- Python's `<` on scrubbed-card tuples: lexicographic on `(rank, suit)`.
`cardLe` is the corresponding reflexive order used for sorted insertion. -/
def cardLe (a b : Card) : Prop :=
  a.1 < b.1 ∨ (a.1 = b.1 ∧ a.2 ≤ b.2)

instance : DecidableRel cardLe := fun a b =>
  inferInstanceAs (Decidable (a.1 < b.1 ∨ (a.1 = b.1 ∧ a.2 ≤ b.2)))

instance : IsTotal Card cardLe := ⟨by intro a b; unfold cardLe; omega⟩

instance : IsTrans Card cardLe := ⟨by intro a b c; unfold cardLe; omega⟩

/-- `bisect.insort` on the sorted hand copy: insert a card at its sorted
position under the lexicographic tuple order.  (`cardLe` is total and
antisymmetric, so inserting before or after equal elements yields the same
list.) -/
def insort (x : Card) (l : List Card) : List Card :=
  List.orderedInsert cardLe x l

/-- Python's `sorted` on the parsed card tuples (lexicographic order). -/
def sortCards (l : List Card) : List Card :=
  List.insertionSort cardLe l

/-- Parse one two-character token into a `(rank, suit)` card, exactly as the
expression `(card_ranks[x[0:-1]], suits[x[-1]])` of `scrub_hand`;
`none` models the `KeyError`/`IndexError` raised on a malformed token. -/
def parseCard (t : List Char) : Option Card :=
  match rankKey t.dropLast with
  | none => none
  | some r =>
    match t.getLast? with
    | none => none
    | some sc =>
      match suits sc with
      | none => none
      | some s => some (r, s)

/-- Evaluate `parseCard` over a whole hand, propagating the first failure:
models the generator expression consumed by `sorted`. -/
def mapO (f : α → Option β) : List α → Option (List β)
  | [] => some []
  | x :: xs =>
    match f x, mapO f xs with
    | some y, some ys => some (y :: ys)
    | _, _ => none

/-- `scrub_hand`: parse every token and sort the cards ascending
(lexicographically on `(rank, suit)`); `none` models a raised `KeyError`. -/
def scrub_hand (hand : List (List Char)) : Option (List Card) :=
  (mapO parseCard hand).map sortCards

/-- The loop body of `low_aces`: iterate the reversed original hand, breaking
at the first rank below 14, skipping ranks above 14, and `insort`-ing a
synthetic `(LOW_ACE, suit)` card into the accumulating copy for each ace. -/
def la_go : List Card → List Card → List Card
  | [], acc => acc
  | (i, j) :: rest, acc =>
    if i < 14 then acc
    else if 14 < i then la_go rest acc
    else la_go rest (insort (LOW_ACE, j) acc)

/-- `low_aces`: return a copy of the (sorted) hand with an additional
`(LOW_ACE, suit)` card inserted for every ace; the original list is not
modified (modelled by value semantics, matching the source's `deepcopy`). -/
def low_aces (hand : List Card) : List Card :=
  la_go hand.reverse hand

/-- Result value of `hand_rank`: Python returns either a 2-tuple
`(category, tiebreak)` or — after the royal-flush relabelling — the bare
integer `ROYAL_FL`. -/
inductive HandRes where
  | tup : Nat → Nat → HandRes
  | int : Nat → HandRes
deriving DecidableEq, Repr

/-- Pointwise update of the per-suit streak table. -/
def updS (f : Nat → Option (Nat × Nat)) (j : Nat) (v : Option (Nat × Nat)) :
    Nat → Option (Nat × Nat) :=
  fun j' => if j' = j then v else f j'

/-- Loop of `straight_flush`: per-suit `(first, last)` run of consecutive
descending ranks; returns `(STRAIGHT_FL, first)` when a run spans 5 cards. -/
def sf_go (streak : Nat → Option (Nat × Nat)) : List Card → Option (Nat × Nat)
  | [] => none
  | (i, j) :: rest =>
    match streak j with
    | none => sf_go (updS streak j (some (i, i))) rest
    | some (first, last) =>
      if last > i + 1 then sf_go (updS streak j (some (i, i))) rest
      else if last = i + 1 then
        if first - i = 4 then some (STRAIGHT_FL, first)
        else sf_go (updS streak j (some (first, i))) rest
      else sf_go streak rest

/-- `straight_flush`, including the final relabelling: a result whose
tiebreak equals 14 (`card_ranks["A"]`) is replaced by the bare integer
`ROYAL_FL`. -/
def straight_flush (hand : List Card) : Option HandRes :=
  match sf_go (fun _ => none) hand.reverse with
  | none => none
  | some (c, v) => if v = 14 then some (.int ROYAL_FL) else some (.tup c v)

/-- The `kind_to_rank` dictionary of `of_kind` (only ever queried
at 2, 3 and 4). -/
def kind_to_rank (n : Nat) : Nat :=
  if n = 2 then ONE_PAIR
  else if n = 3 then THREE_OK
  else if n = 4 then FOUR_OK
  else 0

/-- Loop of `of_kind`: single `(rank, count)` streak over the descending
scan; declares when the count reaches `num`. -/
def ok_go (num : Nat) (streak : Option (Nat × Nat)) :
    List Card → Option (Nat × Nat)
  | [] => none
  | (i, _) :: rest =>
    match streak with
    | none => ok_go num (some (i, 1)) rest
    | some (r, c) =>
      if r ≠ i then ok_go num (some (i, 1)) rest
      else
        if c + 1 = num then some (kind_to_rank num, i)
        else ok_go num (some (i, c + 1)) rest

/-- `of_kind`: n-of-a-kind detector (`num` = 2, 3 or 4 in `hand_rank`). -/
def of_kind (hand : List Card) (num : Nat) : Option (Nat × Nat) :=
  ok_go num none hand.reverse

/-- Loop of `full_house`: two `(rank, count)` streaks; on a new rank the
second streak shifts into the first; declares `(FULL_H, streak[0].rank)` when
the counts after the increment are `{2, 3}`. -/
def fh_go (s0 s1 : Option (Nat × Nat)) : List Card → Option (Nat × Nat)
  | [] => none
  | (i, _) :: rest =>
    match s0 with
    | none => fh_go (some (i, 1)) s1 rest
    | some (r0, c0) =>
      if r0 = i then
        match s1 with
        | some (r1, c1) =>
          if (c0 + 1 = 2 ∧ c1 = 3) ∨ (c0 + 1 = 3 ∧ c1 = 2) then
            some (FULL_H, r0)
          else fh_go (some (r0, c0 + 1)) (some (r1, c1)) rest
        | none => fh_go (some (r0, c0 + 1)) none rest
      else
        match s1 with
        | none => fh_go (some (r0, c0)) (some (i, 1)) rest
        | some (r1, c1) =>
          if r1 ≠ i then fh_go (some (r1, c1)) (some (i, 1)) rest
          else
            if (c0 = 2 ∧ c1 + 1 = 3) ∨ (c0 = 3 ∧ c1 + 1 = 2) then
              some (FULL_H, r0)
            else fh_go (some (r0, c0)) (some (r1, c1 + 1)) rest

/-- `full_house` detector. -/
def full_house (hand : List Card) : Option (Nat × Nat) :=
  fh_go none none hand.reverse

/-- Loop of `flush`: per-suit `(highest, count)`; declares `(FLUSH, highest)`
when a suit's count reaches 5. -/
def fl_go (streak : Nat → Option (Nat × Nat)) : List Card → Option (Nat × Nat)
  | [] => none
  | (i, j) :: rest =>
    match streak j with
    | none => fl_go (updS streak j (some (i, 1))) rest
    | some (hi, c) =>
      if c + 1 = 5 then some (FLUSH, hi)
      else fl_go (updS streak j (some (hi, c + 1))) rest

/-- `flush` detector. -/
def flush (hand : List Card) : Option (Nat × Nat) :=
  fl_go (fun _ => none) hand.reverse

/-- Loop of `straight`: one `(first, last)` window of consecutive ranks;
duplicated ranks are skipped (`pass`); declares `(STRAIGHT, first)` when the
window spans 5 consecutive ranks. -/
def st_go (streak : Option (Nat × Nat)) : List Card → Option (Nat × Nat)
  | [] => none
  | (i, _) :: rest =>
    match streak with
    | none => st_go (some (i, i)) rest
    | some (first, last) =>
      if last > i + 1 then st_go (some (i, i)) rest
      else if last = i then st_go (some (first, last)) rest
      else if last = i + 1 then
        if first - i = 4 then some (STRAIGHT, first)
        else st_go (some (first, i)) rest
      else st_go (some (first, last)) rest

/-- `straight` detector (run on the ace-duplicated hand). -/
def straight (hand : List Card) : Option (Nat × Nat) :=
  st_go none hand.reverse

/-- Loop of `two_pair`: two `(rank, count)` streaks; the first streak never
shifts; the source's first declaration site returns `(FULL_H, streak[0].rank)`
and the second returns `(TWO_PAIR, streak[0].rank)`. -/
def tp_go (s0 s1 : Option (Nat × Nat)) : List Card → Option (Nat × Nat)
  | [] => none
  | (i, _) :: rest =>
    match s0 with
    | none => tp_go (some (i, 1)) s1 rest
    | some (r0, c0) =>
      if r0 = i then
        match s1 with
        | some (r1, c1) =>
          if c0 + 1 = 2 ∧ c1 = 2 then some (FULL_H, r0)
          else tp_go (some (r0, c0 + 1)) (some (r1, c1)) rest
        | none => tp_go (some (r0, c0 + 1)) none rest
      else
        match s1 with
        | none => tp_go (some (r0, c0)) (some (i, 1)) rest
        | some (r1, c1) =>
          if r1 ≠ i then tp_go (some (r0, c0)) (some (i, 1)) rest
          else
            if c0 = 2 ∧ c1 + 1 = 2 then some (TWO_PAIR, r0)
            else tp_go (some (r0, c0)) (some (r1, c1 + 1)) rest

/-- `two_pair` detector. -/
def two_pair (hand : List Card) : Option (Nat × Nat) :=
  tp_go none none hand.reverse

/-- `high_card`: `(0, hand[0][0])` — the first card of the ascending-sorted
hand — or Python `None` (modelled `none`) on an empty hand. -/
def high_card (hand : List Card) : Option (Nat × Nat) :=
  match hand with
  | [] => none
  | c :: _ => some (0, c.1)

/-- Wrap a plain `(category, tiebreak)` detector result as a Python tuple. -/
def tupO (o : Option (Nat × Nat)) : Option HandRes :=
  o.map (fun p => .tup p.1 p.2)

/-- `hand_rank` on an already-scrubbed (sorted) hand: the sequential
`if h_rank is None` cascade of the source, with the straight-type detectors
receiving the ace-duplicated hand.  The result is Python `None` (modelled
`none`) only when every detector declines, i.e. on an empty hand. -/
def hand_rank_scr (h : List Card) : Option HandRes :=
  match straight_flush (low_aces h) with
  | some r => some r
  | none =>
    match of_kind h 4 with
    | some p => some (.tup p.1 p.2)
    | none =>
      match full_house h with
      | some p => some (.tup p.1 p.2)
      | none =>
        match flush h with
        | some p => some (.tup p.1 p.2)
        | none =>
          match straight (low_aces h) with
          | some p => some (.tup p.1 p.2)
          | none =>
            match of_kind h 3 with
            | some p => some (.tup p.1 p.2)
            | none =>
              match two_pair h with
              | some p => some (.tup p.1 p.2)
              | none =>
                match of_kind h 2 with
                | some p => some (.tup p.1 p.2)
                | none =>
                  match high_card h with
                  | some p => some (.tup p.1 p.2)
                  | none => none

/-- `hand_rank` on raw tokens: scrub, then rank.  The outer `Option` models a
`KeyError` while scrubbing; the inner one models Python `None`. -/
def hand_rank (hand : List (List Char)) : Option (Option HandRes) :=
  (scrub_hand hand).map hand_rank_scr

/-- Python's `>` between two `hand_rank` results: lexicographic on tuples,
numeric on bare integers, and a `TypeError` (modelled `none`) when the two
sides have different shapes. -/
def gtRes : HandRes → HandRes → Option Bool
  | .tup a b, .tup c d => some (decide (c < a ∨ (a = c ∧ d < b)))
  | .int a, .int b => some (decide (b < a))
  | _, _ => none

/-- `>` between full key values: comparing against Python `None`
also raises a `TypeError`. -/
def gtKey : Option HandRes → Option HandRes → Option Bool
  | some x, some y => gtRes x y
  | _, _ => none

/-- The scanning phase of Python's `max(hands, key=hand_rank)`: keep the
current best and its key; replace the best only on a strictly greater key
(so the first of several tied maxima is kept).  `none` models an exception
while computing a key or comparing. -/
def poker_go (best : List (List Char)) (bkey : Option HandRes) :
    List (List (List Char)) → Option (List (List Char))
  | [] => some best
  | h :: t =>
    match hand_rank h with
    | none => none
    | some k =>
      match gtKey k bkey with
      | none => none
      | some true => poker_go h k t
      | some false => poker_go best bkey t

/-- `poker(hands) = max(hands, key=hand_rank)`; `none` models Python's
`ValueError` on an empty sequence or an exception raised during the scan. -/
def poker : List (List (List Char)) → Option (List (List Char))
  | [] => none
  | h :: t =>
    match hand_rank h with
    | none => none
    | some k => poker_go h k t

/-- First non-`none` element of a list of optional detector results: the
"first success wins" dispatch described by the spec. -/
def firstSome : List (Option α) → Option α
  | [] => none
  | x :: xs =>
    match x with
    | some v => some v
    | none => firstSome xs

/-- Number of cards of rank `r` in a hand. -/
def cntR (l : List Card) (r : Nat) : Nat :=
  (l.map Prod.fst).count r

/-- A hand is ascending-sorted by rank (the order `scrub_hand` guarantees,
forgetting suits). -/
def ranksMono (h : List Card) : Prop :=
  List.Pairwise (fun a b : Card => a.1 ≤ b.1) h

instance : DecidablePred ranksMono := fun h =>
  inferInstanceAs (Decidable (List.Pairwise _ h))

/-- Strict lexicographic order on `(category, tiebreak)` pairs: Python's `<`
on 2-tuples of integers. -/
def pairLt (x y : Nat × Nat) : Prop :=
  x.1 < y.1 ∨ (x.1 = y.1 ∧ x.2 < y.2)

instance : DecidableRel pairLt := fun x y =>
  inferInstanceAs (Decidable (x.1 < y.1 ∨ (x.1 = y.1 ∧ x.2 < y.2)))

/-- Some two adjacent cards of the list share a rank. -/
def hasAdjDupB : List Card → Bool
  | a :: b :: t => decide (a.1 = b.1) || hasAdjDupB (b :: t)
  | _ => false

/-- The rank characters accepted by the source's `card_ranks` dictionary
(the spec's mapping amended with the extra entry `"1"`). -/
def isRankChar (c : Char) : Bool :=
  (c == '1') || (c == '2') || (c == '3') || (c == '4') || (c == '5') ||
  (c == '6') || (c == '7') || (c == '8') || (c == '9') || (c == 'T') ||
  (c == 'J') || (c == 'Q') || (c == 'K') || (c == 'A')

/-- The rank characters listed by the spec's §4.1 mapping
("2"–"9", T, J, Q, K, A) — without the source's extra `"1"` entry. -/
def isListedRankChar (c : Char) : Bool :=
  (c == '2') || (c == '3') || (c == '4') || (c == '5') || (c == '6') ||
  (c == '7') || (c == '8') || (c == '9') || (c == 'T') || (c == 'J') ||
  (c == 'Q') || (c == 'K') || (c == 'A')

/-- The suit characters accepted by the source's `suits` dictionary. -/
def isSuitChar (c : Char) : Bool :=
  (c == 'C') || (c == 'S') || (c == 'D') || (c == 'H')

/-- A token is well formed exactly when it is a rank character followed by a
suit character. -/
def validTokenB (t : List Char) : Bool :=
  match t with
  | [r, s] => isRankChar r && isSuitChar s
  | _ => false

/-- Modelled from the spec: the rank-character value mapping of §4.1
("2"–"9" literal, "T"→10, "J"→11, "Q"→12, "K"→13, "A"→14), amended with the
source's extra entry "1"→1 (covered by the literal-digit branch). -/
def specRankVal (c : Char) : Nat :=
  if c = 'T' then 10
  else if c = 'J' then 11
  else if c = 'Q' then 12
  else if c = 'K' then 13
  else if c = 'A' then 14
  else c.toNat - '0'.toNat

/-- Modelled from the spec: the suit-character mapping (arbitrary but
consistent and total on {C, S, D, H}), as realised by the source. -/
def specSuitVal (c : Char) : Nat :=
  if c = 'C' then 0
  else if c = 'S' then 1
  else if c = 'D' then 2
  else 3

/-! ## Theorems -/

lemma hand_rank_scr_eq (h : List Card) :
    hand_rank_scr h =
      firstSome [straight_flush (low_aces h), tupO (of_kind h 4),
        tupO (full_house h), tupO (flush h), tupO (straight (low_aces h)),
        tupO (of_kind h 3), tupO (two_pair h), tupO (of_kind h 2),
        tupO (high_card h)] := by
  unfold hand_rank_scr firstSome tupO
  cases straight_flush (low_aces h) <;>
    cases of_kind h 4 <;> cases full_house h <;> cases flush h <;>
    cases straight (low_aces h) <;> cases of_kind h 3 <;> cases two_pair h <;>
    cases of_kind h 2 <;> cases high_card h <;> rfl

lemma firstSome_pred (P : α → Prop) :
    ∀ l : List (Option α), (∀ o ∈ l, ∀ r, o = some r → P r) →
      ∀ r, firstSome l = some r → P r := by
  intro l
  induction l with
  | nil => intro _ r hr; simp [firstSome] at hr
  | cons x xs ih =>
    intro hall r hr
    cases x with
    | some v =>
      have : v = r := by simpa [firstSome] using hr
      exact this ▸ hall (some v) (List.mem_cons_self _ _) v rfl
    | none =>
      exact ih (fun o ho => hall o (List.mem_cons_of_mem _ ho)) r
        (by simpa [firstSome] using hr)

lemma straight_flush_shape (hb : List Card) (r : HandRes)
    (hr : straight_flush hb = some r) :
    (∃ c v, r = .tup c v) ∨ r = .int ROYAL_FL := by
  unfold straight_flush at hr
  cases hsf : sf_go (fun _ => none) hb.reverse with
  | none => rw [hsf] at hr; cases hr
  | some p =>
    obtain ⟨c, v⟩ := p
    rw [hsf] at hr
    dsimp only at hr
    by_cases hv : v = 14
    · right; rw [if_pos hv] at hr; exact (Option.some.inj hr).symm
    · left; rw [if_neg hv] at hr; exact ⟨c, v, (Option.some.inj hr).symm⟩

lemma tupO_shape (o : Option (Nat × Nat)) (r : HandRes) (hr : tupO o = some r) :
    ∃ c v, r = .tup c v := by
  cases o with
  | none => cases hr
  | some p => exact ⟨p.1, p.2, (Option.some.inj hr).symm⟩

/-- Claim C1 (refuted by the code; the spec and the repo's own test comments
are the intent): on the wheel hand ["AS","2S","3S","4S","5C"], the `straight`
detector — run on the ace-duplicated hand — returns `None`, because the
synthetic low ace has rank `LOW_ACE = 0`, which is not consecutive with
rank 2; `hand_rank` therefore falls through to `(HIGH_CARD, 2)` instead of
the expected `(STRAIGHT, 5)`. -/
theorem C1_wheel_not_straight :
    low_aces [(2, 1), (3, 1), (4, 1), (5, 0), (14, 1)] =
      [(0, 1), (2, 1), (3, 1), (4, 1), (5, 0), (14, 1)] ∧
    straight (low_aces [(2, 1), (3, 1), (4, 1), (5, 0), (14, 1)]) = none ∧
    hand_rank [['A', 'S'], ['2', 'S'], ['3', 'S'], ['4', 'S'], ['5', 'C']] =
      some (some (.tup HIGH_CARD 2)) := by
  decide

/-- Claim C4 (refuted by the code; the spec and the repo's own "# 7 high"
test label are the intent): on the hand ["2S","3S","4S","6C","7D"], whose
highest rank is 7, the fallback `high_card` result used by `hand_rank` is
`(HIGH_CARD, 2)` — `hand[0][0]` is the LOWEST rank of the ascending-sorted
hand, not the highest. -/
theorem C4_high_card_returns_lowest :
    scrub_hand [['2', 'S'], ['3', 'S'], ['4', 'S'], ['6', 'C'], ['7', 'D']] =
      some [(2, 1), (3, 1), (4, 1), (6, 0), (7, 2)] ∧
    hand_rank [['2', 'S'], ['3', 'S'], ['4', 'S'], ['6', 'C'], ['7', 'D']] =
      some (some (.tup HIGH_CARD 2)) := by
  decide

/-- Claim C2, counterexample: on the royal-flush hand
["TH","JH","QH","KH","AH"], `hand_rank` returns the BARE integer `ROYAL_FL`
(the source's `hand_rank = ROYAL_FL` relabelling), which is not a
`(Category, tiebreak)` pair. -/
theorem C2_royal_is_bare_int :
    hand_rank [['T', 'H'], ['J', 'H'], ['Q', 'H'], ['K', 'H'], ['A', 'H']] =
      some (some (.int ROYAL_FL)) ∧
    ∀ c v : Nat, HandRes.int ROYAL_FL ≠ HandRes.tup c v :=
  ⟨by decide, fun _ _ h => nomatch h⟩

/-- Claim C2 as amended: for every well-formed hand, `hand_rank` returns
either a `(Category, tiebreak)` pair, or — exactly in the royal-flush case —
the bare category constant `ROYAL_FL` with no tiebreak component. -/
theorem C2_result_pair_or_royal (h : List Card) (r : HandRes)
    (_hsuits : ∀ c ∈ h, c.2 < 4) (hr : hand_rank_scr h = some r) :
    (∃ c v, r = .tup c v) ∨ r = .int ROYAL_FL := by
  rw [hand_rank_scr_eq] at hr
  refine firstSome_pred
    (fun rr => (∃ c v, rr = HandRes.tup c v) ∨ rr = HandRes.int ROYAL_FL)
    _ ?_ r hr
  intro o ho rr hrr
  simp only [List.mem_cons, List.not_mem_nil, or_false] at ho
  rcases ho with rfl | rfl | rfl | rfl | rfl | rfl | rfl | rfl | rfl
  · exact straight_flush_shape _ rr hrr
  all_goals exact Or.inl (tupO_shape _ rr hrr)

/-- Witness for C2: the amended theorem applied to the scrubbed royal-flush
hand, whose result is the bare `ROYAL_FL`. -/
theorem C2_result_pair_or_royal_witness :
    (∃ c v, HandRes.int ROYAL_FL = HandRes.tup c v) ∨
      HandRes.int ROYAL_FL = HandRes.int ROYAL_FL :=
  C2_result_pair_or_royal [(10, 3), (11, 3), (12, 3), (13, 3), (14, 3)]
    (.int ROYAL_FL) (by decide) (by decide)

/-- Claim C8 (confirmed): `hand_rank` tries the detectors in exactly the
order straight flush/royal, four of a kind, full house, flush, straight,
three of a kind, two pair, one pair, high card — the straight-type detectors
on the ace-duplicated hand — and returns the first non-`None` result. -/
theorem C8_detector_order (h : List Card) :
    hand_rank_scr h =
      firstSome [straight_flush (low_aces h), tupO (of_kind h 4),
        tupO (full_house h), tupO (flush h), tupO (straight (low_aces h)),
        tupO (of_kind h 3), tupO (two_pair h), tupO (of_kind h 2),
        tupO (high_card h)] :=
  hand_rank_scr_eq h

/-- Claim C3, counterexample: the repo's own executed test hand
"TH TS 2D 2H 2S KS" (triple of 2s, pair of 10s) is classified
`(FULL_H, 10)` — the tiebreak is the rank of the 2-count streak (the pair of
tens), not the rank of the 3-count streak (the 2s). -/
theorem C3_fullhouse_tiebreak_not_triple :
    full_house [(2, 1), (2, 2), (2, 3), (10, 1), (10, 3), (13, 1)] =
      some (FULL_H, 10) ∧
    cntR [(2, 1), (2, 2), (2, 3), (10, 1), (10, 3), (13, 1)] 2 = 3 ∧
    cntR [(2, 1), (2, 2), (2, 3), (10, 1), (10, 3), (13, 1)] 10 = 2 ∧
    hand_rank [['T', 'H'], ['T', 'S'], ['2', 'D'], ['2', 'H'], ['2', 'S'],
        ['K', 'S']] = some (some (.tup FULL_H 10)) := by
  decide

/-- Claim C5, counterexample: the hand ["KS","9H","9C","5S","5D"] contains
two distinct ranks occurring exactly twice, but because its highest-ranked
card (the king) is not part of a pair, `two_pair` returns `None` and
`hand_rank` falls through to `(ONE_PAIR, 9)`. -/
theorem C5_two_pair_unpaired_top_missed :
    two_pair [(5, 1), (5, 2), (9, 0), (9, 3), (13, 1)] = none ∧
    hand_rank [['K', 'S'], ['9', 'H'], ['9', 'C'], ['5', 'S'], ['5', 'D']] =
      some (some (.tup ONE_PAIR 9)) := by
  decide

/-- Claim C6, counterexample: the token "1S" has a rank character outside the
spec's listed mapping ("2"–"9", T, J, Q, K, A), yet `scrub_hand` parses it
without error to the card `(1, 1)` — the source's `card_ranks` dictionary
also contains the entry `"1": 1`. -/
theorem C6_rank_one_parses :
    isListedRankChar '1' = false ∧
    scrub_hand [['1', 'S']] = some [(1, 1)] := by
  decide

/-- Claim C7, counterexample: mixing the royal-flush hand (whose rank is the
bare integer `ROYAL_FL`) with an ordinary hand (whose rank is a tuple) makes
Python's `max` comparison raise a `TypeError` (modelled `none`): no hand at
all is returned, contradicting "exactly one hand is returned". -/
theorem C7_royal_mix_type_error :
    poker [[['T', 'H'], ['J', 'H'], ['Q', 'H'], ['K', 'H'], ['A', 'H']],
           [['T', 'D'], ['T', 'C'], ['T', 'H'], ['7', 'C'], ['7', 'D']]] =
      none := by
  decide

lemma tp_go_no_fullh :
    ∀ (d : List Card) (s0 s1 : Option (Nat × Nat)),
      List.Pairwise (fun a b : Card => b.1 ≤ a.1) d →
      (s0 = none → s1 = none) →
      (∀ r0 c0, s0 = some (r0, c0) → s1 = none → ∀ e ∈ d, e.1 ≤ r0) →
      (∀ r0 c0 r1 c1, s0 = some (r0, c0) → s1 = some (r1, c1) →
        r1 < r0 ∧ ∀ e ∈ d, e.1 ≤ r1) →
      ∀ c r, tp_go s0 s1 d = some (c, r) → c = TWO_PAIR := by
  intro d
  induction d with
  | nil => intro s0 s1 _ _ _ _ c r hh; simp [tp_go] at hh
  | cons e rest ih =>
    obtain ⟨i, j⟩ := e
    intro s0 s1 hpw h00 h01 h02 c r hh
    rw [List.pairwise_cons] at hpw
    obtain ⟨hhead, htail⟩ := hpw
    cases s0 with
    | none =>
      have hs1 := h00 rfl
      subst hs1
      simp only [tp_go] at hh
      refine ih (some (i, 1)) none htail (fun h => rfl) ?_
        (fun _ _ _ _ _ h => nomatch h) c r hh
      intro r0 c0 h _ e he
      cases h
      exact hhead e he
    | some p =>
      obtain ⟨r0, c0⟩ := p
      cases s1 with
      | none =>
        have hd := h01 r0 c0 rfl rfl
        simp only [tp_go] at hh
        by_cases hi : r0 = i
        · rw [if_pos hi] at hh
          refine ih (some (r0, c0 + 1)) none htail (fun h => nomatch h) ?_
            (fun _ _ _ _ _ h => nomatch h) c r hh
          intro r0' c0' h _ e he
          cases h
          exact hd e (List.mem_cons_of_mem _ he)
        · rw [if_neg hi] at hh
          refine ih (some (r0, c0)) (some (i, 1)) htail (fun h => nomatch h)
            (fun _ _ _ h => nomatch h) ?_ c r hh
          intro r0' c0' r1' c1' h h'
          cases h
          cases h'
          refine ⟨?_, hhead⟩
          have := hd (i, j) (List.mem_cons_self _ _)
          omega
      | some q =>
        obtain ⟨r1, c1⟩ := q
        obtain ⟨hr10, hd1⟩ := h02 r0 c0 r1 c1 rfl rfl
        by_cases hi : r0 = i
        · exfalso
          have := hd1 (i, j) (List.mem_cons_self _ _)
          omega
        · simp only [tp_go] at hh
          rw [if_neg hi] at hh
          by_cases hr1i : r1 ≠ i
          · rw [if_pos hr1i] at hh
            refine ih (some (r0, c0)) (some (i, 1)) htail (fun h => nomatch h)
              (fun _ _ _ h => nomatch h) ?_ c r hh
            intro r0' c0' r1' c1' h h'
            cases h
            cases h'
            refine ⟨?_, hhead⟩
            have := hd1 (i, j) (List.mem_cons_self _ _)
            omega
          · rw [if_neg hr1i] at hh
            by_cases hc : c0 = 2 ∧ c1 + 1 = 2
            · rw [if_pos hc] at hh
              cases hh
              rfl
            · rw [if_neg hc] at hh
              refine ih (some (r0, c0)) (some (r1, c1 + 1)) htail
                (fun h => nomatch h) (fun _ _ _ h => nomatch h) ?_ c r hh
              intro r0' c0' r1' c1' h h'
              cases h
              cases h'
              exact ⟨hr10, fun e he => hd1 e (List.mem_cons_of_mem _ he)⟩

/-- Claim C10 (confirmed): on an ascending-sorted hand, `two_pair` returns
either `None` or a result whose category is `TWO_PAIR`; the source's branch
that would return `(FULL_H, _)` from inside `two_pair` is unreachable,
because once the second streak exists the scan can never meet the first
streak's rank again. -/
theorem C10_two_pair_never_full_house (h : List Card) (hs : ranksMono h) :
    ∀ c r, two_pair h = some (c, r) → c = TWO_PAIR := by
  intro c r hh
  refine tp_go_no_fullh h.reverse none none ?_ (fun _ => rfl)
    (fun _ _ h' => nomatch h') (fun _ _ _ _ h' => nomatch h') c r hh
  rw [List.pairwise_reverse]
  exact hs

/-- Witness for C10: a concrete sorted two-pair hand on which `two_pair`
declares, with category `TWO_PAIR`. -/
theorem C10_two_pair_never_full_house_witness :
    (ranksMono [(5, 1), (5, 2), (9, 0), (9, 3)] ∧
      two_pair [(5, 1), (5, 2), (9, 0), (9, 3)] = some (2, 9)) ∧
    (2 : Nat) = TWO_PAIR :=
  ⟨⟨by decide, by decide⟩,
    C10_two_pair_never_full_house [(5, 1), (5, 2), (9, 0), (9, 3)] (by decide)
      2 9 (by decide)⟩

lemma hasAdjDupB_concat (l : List Card) (a : Card) :
    hasAdjDupB (l ++ [a]) =
      (hasAdjDupB l ||
        match l.getLast? with
        | none => false
        | some b => decide (b.1 = a.1)) := by
  induction l with
  | nil => rfl
  | cons x xs ih =>
    cases xs with
    | nil => simp [hasAdjDupB]
    | cons y ys =>
      have hc : (x :: y :: ys) ++ [a] = x :: ((y :: ys) ++ [a]) := rfl
      rw [hc]
      show (decide (x.1 = y.1) || hasAdjDupB ((y :: ys) ++ [a])) = _
      rw [ih, List.getLast?_cons_cons]
      show _ = ((decide (x.1 = y.1) || hasAdjDupB (y :: ys)) || _)
      rw [Bool.or_assoc]

lemma hasAdjDupB_reverse (l : List Card) :
    hasAdjDupB l.reverse = hasAdjDupB l := by
  induction l with
  | nil => rfl
  | cons x xs ih =>
    rw [List.reverse_cons, hasAdjDupB_concat, ih, List.getLast?_reverse]
    cases xs with
    | nil => rfl
    | cons y ys =>
      show (hasAdjDupB (y :: ys) || decide (y.1 = x.1)) = _
      rw [Bool.or_comm]
      show (decide (y.1 = x.1) || _) = (decide (x.1 = y.1) || _)
      rw [decide_eq_decide.mpr (eq_comm : (y.1 = x.1) ↔ x.1 = y.1)]

lemma tp_go_finds (M : Nat) :
    ∀ (d : List Card) (s1 : Option (Nat × Nat)),
      (∀ e ∈ d, e.1 ≠ M) →
      (s1 = none ∨ ∃ r1, s1 = some (r1, 1)) →
      (hasAdjDupB d = true ∨
        ∃ r1 e d', s1 = some (r1, 1) ∧ d = e :: d' ∧ e.1 = r1) →
      tp_go (some (M, 2)) s1 d = some (TWO_PAIR, M) := by
  intro d
  induction d with
  | nil =>
    intro s1 _ _ h3
    rcases h3 with h3 | ⟨r1, e, d', _, hd, _⟩
    · simp [hasAdjDupB] at h3
    · cases hd
  | cons e rest ih =>
    obtain ⟨i, j⟩ := e
    intro s1 hmem h2 h3
    have hiM : i ≠ M := hmem (i, j) (List.mem_cons_self _ _)
    have hmem' : ∀ e ∈ rest, e.1 ≠ M :=
      fun e he => hmem e (List.mem_cons_of_mem _ he)
    rcases h2 with rfl | ⟨r1, rfl⟩
    · have hadj : hasAdjDupB ((i, j) :: rest) = true := by
        rcases h3 with h3 | ⟨_, _, _, hs, _, _⟩
        · exact h3
        · cases hs
      cases rest with
      | nil => simp [hasAdjDupB] at hadj
      | cons f rest' =>
        simp only [tp_go]
        rw [if_neg (Ne.symm hiM)]
        rw [show hasAdjDupB ((i, j) :: f :: rest') =
            (decide (i = f.1) || hasAdjDupB (f :: rest')) from rfl] at hadj
        rcases Bool.or_eq_true_iff.mp hadj with hif | hadj'
        · exact ih (some (i, 1)) hmem' (Or.inr ⟨i, rfl⟩)
            (Or.inr ⟨i, f, rest', rfl, rfl, (of_decide_eq_true hif).symm⟩)
        · exact ih (some (i, 1)) hmem' (Or.inr ⟨i, rfl⟩) (Or.inl hadj')
    · by_cases hri : r1 = i
      · simp only [tp_go]
        rw [if_neg (Ne.symm hiM)]
        rw [if_neg (show ¬ (r1 ≠ i) from fun hh => hh hri)]
        simp
      · have hadj : hasAdjDupB ((i, j) :: rest) = true := by
          rcases h3 with h3 | ⟨r1', e, d', hs, hd, he⟩
          · exact h3
          · exfalso
            cases hs
            cases hd
            exact hri he.symm
        cases rest with
        | nil => simp [hasAdjDupB] at hadj
        | cons f rest' =>
          simp only [tp_go]
          rw [if_neg (Ne.symm hiM)]
          rw [if_pos (hri : r1 ≠ i)]
          rw [show hasAdjDupB ((i, j) :: f :: rest') =
              (decide (i = f.1) || hasAdjDupB (f :: rest')) from rfl] at hadj
          rcases Bool.or_eq_true_iff.mp hadj with hif | hadj'
          · exact ih (some (i, 1)) hmem' (Or.inr ⟨i, rfl⟩)
              (Or.inr ⟨i, f, rest', rfl, rfl, (of_decide_eq_true hif).symm⟩)
          · exact ih (some (i, 1)) hmem' (Or.inr ⟨i, rfl⟩) (Or.inl hadj')

lemma tp_go_stuck (M : Nat) :
    ∀ (d : List Card) (s1 : Option (Nat × Nat)),
      (∀ e ∈ d, e.1 ≠ M) → tp_go (some (M, 1)) s1 d = none := by
  intro d
  induction d with
  | nil => intro s1 _; rfl
  | cons e rest ih =>
    obtain ⟨i, j⟩ := e
    intro s1 hmem
    have hiM : i ≠ M := hmem (i, j) (List.mem_cons_self _ _)
    have hmem' : ∀ e ∈ rest, e.1 ≠ M :=
      fun e he => hmem e (List.mem_cons_of_mem _ he)
    cases s1 with
    | none =>
      simp only [tp_go]
      rw [if_neg (Ne.symm hiM)]
      exact ih (some (i, 1)) hmem'
    | some q =>
      obtain ⟨r1, c1⟩ := q
      simp only [tp_go]
      rw [if_neg (Ne.symm hiM)]
      by_cases hri : r1 ≠ i
      · rw [if_pos hri]
        exact ih (some (i, 1)) hmem'
      · rw [if_neg hri]
        rw [if_neg (by omega : ¬ ((1 : Nat) = 2 ∧ c1 + 1 = 2))]
        exact ih (some (r1, c1 + 1)) hmem'

/-- Claim C5 as amended: `two_pair` declares `(TWO_PAIR, M)` exactly when the
hand's two top cards share the maximal rank `M` (so the highest rank is
itself paired) and some lower rank is also repeated in adjacent positions;
when the hand's single top card outranks everything else, `two_pair` returns
`None` regardless of any pairs below it. -/
theorem C5_two_pair_top_pair_only :
    (∀ (M sa sb : Nat) (t : List Card),
      (∀ e ∈ t, e.1 < M) → hasAdjDupB t = true →
      two_pair (t ++ [(M, sa), (M, sb)]) = some (TWO_PAIR, M)) ∧
    (∀ (m : Card) (t : List Card),
      (∀ e ∈ t, e.1 < m.1) → two_pair (t ++ [m]) = none) := by
  constructor
  · intro M sa sb t hlt hadj
    unfold two_pair
    have hrev : (t ++ [(M, sa), (M, sb)]).reverse =
        (M, sb) :: (M, sa) :: t.reverse := by
      rw [List.reverse_append]; rfl
    rw [hrev]
    simp only [tp_go, if_pos rfl]
    exact tp_go_finds M t.reverse none
      (fun e he => Nat.ne_of_lt (hlt e (List.mem_reverse.mp he)))
      (Or.inl rfl)
      (Or.inl (by rw [hasAdjDupB_reverse]; exact hadj))
  · intro m t hlt
    unfold two_pair
    have hrev : (t ++ [m]).reverse = m :: t.reverse := by
      rw [List.reverse_append]; rfl
    rw [hrev]
    obtain ⟨mi, mj⟩ := m
    simp only [tp_go]
    exact tp_go_stuck mi t.reverse none
      (fun e he => Nat.ne_of_lt (hlt e (List.mem_reverse.mp he)))

/-- Witness for C5: both amended directions at concrete hands — the repo's
own two-pair test hand (top rank 9 paired, fives below) declares
`(TWO_PAIR, 9)`, and a hand topped by a lone king yields `None`. -/
theorem C5_two_pair_top_pair_only_witness :
    two_pair [(5, 1), (5, 2), (6, 1), (9, 0), (9, 3)] = some (TWO_PAIR, 9) ∧
    two_pair [(5, 1), (5, 2), (9, 0), (9, 3), (13, 1)] = none :=
  ⟨C5_two_pair_top_pair_only.1 9 0 3 [(5, 1), (5, 2), (6, 1)] (by decide)
      (by decide),
    C5_two_pair_top_pair_only.2 (13, 1) [(5, 1), (5, 2), (9, 0), (9, 3)]
      (by decide)⟩

lemma cntR_append (p q : List Card) (r : Nat) :
    cntR (p ++ q) r = cntR p r + cntR q r := by
  simp [cntR, List.count_append]

lemma cntR_single_self (i j : Nat) : cntR [(i, j)] i = 1 := by
  simp [cntR]

lemma cntR_cons_self (i j : Nat) (rest : List Card) :
    cntR ((i, j) :: rest) i = cntR rest i + 1 := by
  simp [cntR, List.count_cons]

lemma cntR_reverse (l : List Card) (r : Nat) :
    cntR l.reverse r = cntR l r := by
  simp [cntR, List.map_reverse, List.count_reverse]

lemma fh_go_sound :
    ∀ (d p : List Card) (s0 s1 : Option (Nat × Nat)),
      List.Pairwise (fun a b : Card => b.1 ≤ a.1) d →
      (s0 = none → s1 = none) →
      (∀ r0 c0, s0 = some (r0, c0) →
        c0 ≤ cntR p r0 ∧ (s1 = none → ∀ e ∈ d, e.1 ≤ r0)) →
      (∀ r0 c0 r1 c1, s0 = some (r0, c0) → s1 = some (r1, c1) →
        r1 < r0 ∧ c1 ≤ cntR p r1 ∧ ∀ e ∈ d, e.1 ≤ r1) →
      ∀ c r, fh_go s0 s1 d = some (c, r) →
        c = FULL_H ∧ 2 ≤ cntR (p ++ d) r ∧
          ∃ r', r' < r ∧ 2 ≤ cntR (p ++ d) r' := by
  intro d
  induction d with
  | nil => intro p s0 s1 _ _ _ _ c r hh; simp [fh_go] at hh
  | cons e rest ih =>
    obtain ⟨i, j⟩ := e
    intro p s0 s1 hpw h00 h01 h02 c r hh
    rw [List.pairwise_cons] at hpw
    obtain ⟨hhead, htail⟩ := hpw
    have hpp : (p ++ [(i, j)]) ++ rest = p ++ (i, j) :: rest := by simp
    cases s0 with
    | none =>
      have hs1 := h00 rfl
      subst hs1
      simp only [fh_go] at hh
      have hres := ih (p ++ [(i, j)]) (some (i, 1)) none htail
        (fun h => rfl) ?_ (fun _ _ _ _ _ h => nomatch h) c r hh
      · rw [hpp] at hres
        exact hres
      · intro r0 c0 h
        cases h
        refine ⟨?_, fun _ => hhead⟩
        rw [cntR_append, cntR_single_self]
        omega
    | some p0 =>
      obtain ⟨r0, c0⟩ := p0
      obtain ⟨hc0le, hd0⟩ := h01 r0 c0 rfl
      cases s1 with
      | none =>
        have hd0' := hd0 rfl
        simp only [fh_go] at hh
        by_cases hi : r0 = i
        · rw [if_pos hi] at hh
          have hres := ih (p ++ [(i, j)]) (some (r0, c0 + 1)) none htail
            (fun h => nomatch h) ?_ (fun _ _ _ _ _ h => nomatch h) c r hh
          · rw [hpp] at hres
            exact hres
          · intro r0' c0' h
            cases h
            constructor
            · have hsing : cntR [(i, j)] r0 = 1 := by
                rw [hi]; exact cntR_single_self i j
              rw [cntR_append, hsing]
              omega
            · exact fun _ e he => hd0' e (List.mem_cons_of_mem _ he)
        · rw [if_neg hi] at hh
          have hres := ih (p ++ [(i, j)]) (some (r0, c0)) (some (i, 1)) htail
            (fun h => nomatch h) ?_ ?_ c r hh
          · rw [hpp] at hres
            exact hres
          · intro r0' c0' h
            cases h
            refine ⟨?_, fun h' => nomatch h'⟩
            rw [cntR_append]
            omega
          · intro r0' c0' r1' c1' h h'
            cases h
            cases h'
            have hile := hd0' (i, j) (List.mem_cons_self _ _)
            refine ⟨by omega, ?_, hhead⟩
            rw [cntR_append, cntR_single_self]
            omega
      | some q =>
        obtain ⟨r1, c1⟩ := q
        obtain ⟨hr10, hc1le, hd1⟩ := h02 r0 c0 r1 c1 rfl rfl
        by_cases hi : r0 = i
        · exfalso
          have := hd1 (i, j) (List.mem_cons_self _ _)
          omega
        · simp only [fh_go] at hh
          rw [if_neg hi] at hh
          by_cases hr1i : r1 ≠ i
          · rw [if_pos hr1i] at hh
            have hres := ih (p ++ [(i, j)]) (some (r1, c1)) (some (i, 1)) htail
              (fun h => nomatch h) ?_ ?_ c r hh
            · rw [hpp] at hres
              exact hres
            · intro r0' c0' h
              cases h
              refine ⟨?_, fun h' => nomatch h'⟩
              rw [cntR_append]
              omega
            · intro r0' c0' r1' c1' h h'
              cases h
              cases h'
              have hile := hd1 (i, j) (List.mem_cons_self _ _)
              refine ⟨by omega, ?_, hhead⟩
              rw [cntR_append, cntR_single_self]
              omega
          · rw [if_neg hr1i] at hh
            have hir1 : r1 = i := not_ne_iff.mp hr1i
            by_cases hcond : (c0 = 2 ∧ c1 + 1 = 3) ∨ (c0 = 3 ∧ c1 + 1 = 2)
            · rw [if_pos hcond] at hh
              injection hh with hpair
              injection hpair with hceq hreq
              subst hceq
              subst hreq
              have hc0 : 2 ≤ c0 := by rcases hcond with ⟨h, _⟩ | ⟨h, _⟩ <;> omega
              have hc1 : 1 ≤ c1 := by rcases hcond with ⟨_, h⟩ | ⟨_, h⟩ <;> omega
              have hm0 : cntR (p ++ (i, j) :: rest) r0 =
                  cntR p r0 + cntR ((i, j) :: rest) r0 := cntR_append _ _ _
              have hm1 : cntR (p ++ (i, j) :: rest) r1 =
                  cntR p r1 + cntR ((i, j) :: rest) r1 := cntR_append _ _ _
              have hh1 : cntR ((i, j) :: rest) r1 = cntR rest r1 + 1 := by
                rw [hir1]
                exact cntR_cons_self i j rest
              refine ⟨rfl, by omega, r1, hr10, by omega⟩
            · rw [if_neg hcond] at hh
              have hres := ih (p ++ [(i, j)]) (some (r0, c0)) (some (r1, c1 + 1))
                htail (fun h => nomatch h) ?_ ?_ c r hh
              · rw [hpp] at hres
                exact hres
              · intro r0' c0' h
                cases h
                refine ⟨?_, fun h' => nomatch h'⟩
                rw [cntR_append]
                omega
              · intro r0' c0' r1' c1' h h'
                cases h
                cases h'
                refine ⟨hr10, ?_, fun e he => hd1 e (List.mem_cons_of_mem _ he)⟩
                have hsing : cntR [(i, j)] r1 = 1 := by
                  rw [hir1]; exact cntR_single_self i j
                rw [cntR_append, hsing]
                omega

/-- Claim C3 as amended: whenever `full_house` classifies a sorted hand, the
tiebreak is `streak[0]`'s rank — the HIGHER-ranked of two ranks that each
occur at least twice — not necessarily the rank of the 3-count streak: for
`[b,b,a,a,a]` (triple on top) it is the triple's rank `a`, but for
`[b,b,b,a,a]` (pair on top) it is the pair's rank `a`. -/
theorem C3_fullhouse_tiebreak_higher_rank :
    (∀ h : List Card, ranksMono h → ∀ c r, full_house h = some (c, r) →
      c = FULL_H ∧ 2 ≤ cntR h r ∧ ∃ r', r' < r ∧ 2 ≤ cntR h r') ∧
    (∀ a b s1 s2 s3 s4 s5 : Nat, b < a →
      full_house [(b, s1), (b, s2), (a, s3), (a, s4), (a, s5)] =
        some (FULL_H, a) ∧
      full_house [(b, s1), (b, s2), (b, s3), (a, s4), (a, s5)] =
        some (FULL_H, a)) := by
  constructor
  · intro h hs c r hh
    have hres := fh_go_sound h.reverse [] none none
      (by rw [List.pairwise_reverse]; exact hs) (fun _ => rfl)
      (fun _ _ h' => nomatch h') (fun _ _ _ _ h' => nomatch h') c r hh
    rw [List.nil_append] at hres
    obtain ⟨hc, h2, r', hlt, h2'⟩ := hres
    rw [cntR_reverse] at h2 h2'
    exact ⟨hc, h2, r', hlt, h2'⟩
  · intro a b s1 s2 s3 s4 s5 hba
    have hab : ¬ (a = b) := by omega
    constructor
    · show full_house [(b, s1), (b, s2), (a, s3), (a, s4), (a, s5)] =
        some (FULL_H, a)
      unfold full_house
      rw [show ([(b, s1), (b, s2), (a, s3), (a, s4), (a, s5)] :
          List Card).reverse =
        [(a, s5), (a, s4), (a, s3), (b, s2), (b, s1)] from rfl]
      simp [fh_go, hab]
    · show full_house [(b, s1), (b, s2), (b, s3), (a, s4), (a, s5)] =
        some (FULL_H, a)
      unfold full_house
      rw [show ([(b, s1), (b, s2), (b, s3), (a, s4), (a, s5)] :
          List Card).reverse =
        [(a, s5), (a, s4), (b, s3), (b, s2), (b, s1)] from rfl]
      simp [fh_go, hab]

/-- Witness for C3: the general part applied to the repo's own executed
full-house test hand (whose tiebreak 10 is the pair's rank), and the
parametric part at a concrete pair-on-top full house. -/
theorem C3_fullhouse_tiebreak_higher_rank_witness :
    ((6 : Nat) = FULL_H ∧
      2 ≤ cntR [(2, 1), (2, 2), (2, 3), (10, 1), (10, 3), (13, 1)] 10 ∧
      ∃ r', r' < 10 ∧
        2 ≤ cntR [(2, 1), (2, 2), (2, 3), (10, 1), (10, 3), (13, 1)] r') ∧
    full_house [(7, 0), (7, 1), (9, 2), (9, 3), (9, 0)] = some (FULL_H, 9) :=
  ⟨C3_fullhouse_tiebreak_higher_rank.1
      [(2, 1), (2, 2), (2, 3), (10, 1), (10, 3), (13, 1)] (by decide) 6 10
      (by decide),
    (C3_fullhouse_tiebreak_higher_rank.2 9 7 0 1 2 3 0 (by decide)).1⟩

/-- The synthetic low-ace cards that the `low_aces` loop inserts while
scanning a descending card list: one `(LOW_ACE, suit)` per leading card of
rank 14, stopping at the first rank below 14 and skipping ranks above 14. -/
def lowAceCards : List Card → List Card
  | [] => []
  | (i, j) :: rest =>
    if i < 14 then []
    else if 14 < i then lowAceCards rest
    else (LOW_ACE, j) :: lowAceCards rest

lemma insort_perm (x : Card) (l : List Card) : (insort x l).Perm (x :: l) :=
  List.perm_orderedInsert cardLe x l

lemma insort_sorted (x : Card) (l : List Card) (hs : List.Sorted cardLe l) :
    List.Sorted cardLe (insort x l) :=
  hs.orderedInsert x l

lemma la_go_perm :
    ∀ rev acc : List Card, (la_go rev acc).Perm (acc ++ lowAceCards rev) := by
  intro rev
  induction rev with
  | nil => intro acc; simp [la_go, lowAceCards]
  | cons e rest ih =>
    obtain ⟨i, j⟩ := e
    intro acc
    by_cases h1 : i < 14
    · simp [la_go, lowAceCards, h1]
    · by_cases h2 : 14 < i
      · rw [show la_go ((i, j) :: rest) acc = la_go rest acc from by
          simp [la_go, h1, h2]]
        rw [show lowAceCards ((i, j) :: rest) = lowAceCards rest from by
          simp [lowAceCards, h1, h2]]
        exact ih acc
      · rw [show la_go ((i, j) :: rest) acc =
            la_go rest (insort (LOW_ACE, j) acc) from by simp [la_go, h1, h2]]
        rw [show lowAceCards ((i, j) :: rest) =
            (LOW_ACE, j) :: lowAceCards rest from by simp [lowAceCards, h1, h2]]
        refine (ih (insort (LOW_ACE, j) acc)).trans ?_
        refine (List.Perm.append_right (lowAceCards rest)
          (insort_perm (LOW_ACE, j) acc)).trans ?_
        exact List.perm_middle.symm

lemma la_go_sorted :
    ∀ rev acc : List Card, List.Sorted cardLe acc →
      List.Sorted cardLe (la_go rev acc) := by
  intro rev
  induction rev with
  | nil => intro acc hs; exact hs
  | cons e rest ih =>
    obtain ⟨i, j⟩ := e
    intro acc hs
    by_cases h1 : i < 14
    · simpa [la_go, h1] using hs
    · by_cases h2 : 14 < i
      · rw [show la_go ((i, j) :: rest) acc = la_go rest acc from by
          simp [la_go, h1, h2]]
        exact ih acc hs
      · rw [show la_go ((i, j) :: rest) acc =
            la_go rest (insort (LOW_ACE, j) acc) from by simp [la_go, h1, h2]]
        exact ih _ (insort_sorted _ _ hs)

lemma lowAceCards_eq_filter :
    ∀ l : List Card, List.Pairwise (fun a b : Card => b.1 ≤ a.1) l →
      lowAceCards l =
        (l.filter (fun c => decide (c.1 = 14))).map
          (fun c => ((LOW_ACE : Nat), c.2)) := by
  intro l
  induction l with
  | nil => intro _; rfl
  | cons e rest ih =>
    obtain ⟨i, j⟩ := e
    intro hpw
    rw [List.pairwise_cons] at hpw
    obtain ⟨hhead, htail⟩ := hpw
    by_cases h1 : i < 14
    · have hne : ¬ (i = 14) := by omega
      have hnil : rest.filter (fun c => decide (c.1 = 14)) = [] := by
        rw [List.filter_eq_nil_iff]
        intro c hc
        have := hhead c hc
        simp only [decide_eq_true_eq]
        omega
      simp [lowAceCards, h1, List.filter_cons, hne, hnil]
    · by_cases h2 : 14 < i
      · have hne : ¬ (i = 14) := by omega
        simp [lowAceCards, h1, h2, List.filter_cons, hne, ih htail]
      · have hi : i = 14 := by omega
        simp [lowAceCards, h1, h2, List.filter_cons, hi, ih htail]

/-- Claim C9 (confirmed): for every sorted hand `h`, `low_aces h` is again
sorted and consists, as a multiset, of every card of `h` plus one synthetic
`(LOW_ACE, suit)` card per ace of `h` — i.e. each synthetic card is inserted
at its correct sorted position and nothing else changes.  (The source's
`deepcopy` aliasing guarantee is inherent in the pure model.) -/
theorem C9_low_aces_sorted_insert (h : List Card)
    (hs : List.Sorted cardLe h) :
    List.Sorted cardLe (low_aces h) ∧
    (low_aces h).Perm
      (h ++ (h.filter (fun c => decide (c.1 = 14))).map
        (fun c => ((LOW_ACE : Nat), c.2))) := by
  constructor
  · exact la_go_sorted h.reverse h hs
  · have hperm := la_go_perm h.reverse h
    have hrev : List.Pairwise (fun a b : Card => b.1 ≤ a.1) h.reverse := by
      rw [List.pairwise_reverse]
      exact hs.imp (fun hab => by unfold cardLe at hab; omega)
    rw [lowAceCards_eq_filter h.reverse hrev] at hperm
    refine hperm.trans (List.Perm.append_left h ?_)
    exact ((List.reverse_perm h).filter _).map _

/-- Witness for C9: the theorem applied to a concrete sorted two-card hand
with one ace. -/
theorem C9_low_aces_sorted_insert_witness :
    List.Sorted cardLe [(2, 1), (14, 0)] ∧
    (List.Sorted cardLe (low_aces [(2, 1), (14, 0)]) ∧
      (low_aces [(2, 1), (14, 0)]).Perm
        ([(2, 1), (14, 0)] ++
          (([(2, 1), (14, 0)] : List Card).filter
            (fun c => decide (c.1 = 14))).map
            (fun c => ((LOW_ACE : Nat), c.2)))) :=
  ⟨by decide, C9_low_aces_sorted_insert [(2, 1), (14, 0)] (by decide)⟩

lemma pairLt_irrefl (x : Nat × Nat) : ¬ pairLt x x := by
  unfold pairLt; omega

lemma pairLt_asymm {x y : Nat × Nat} (h : pairLt x y) : ¬ pairLt y x := by
  unfold pairLt at *; omega

lemma pairLt_of_lt_of_nlt {a b c : Nat × Nat} (h1 : pairLt a b)
    (h2 : ¬ pairLt c b) : pairLt a c := by
  unfold pairLt at *; omega

lemma pairLt_of_nlt_of_lt {a b c : Nat × Nat} (h1 : ¬ pairLt a b)
    (h2 : pairLt a c) : pairLt b c := by
  unfold pairLt at *; omega

lemma gtKey_tup (x y : Nat × Nat) :
    gtKey (some (.tup x.1 x.2)) (some (.tup y.1 y.2)) =
      some (decide (pairLt y x)) := by
  show some (decide (y.1 < x.1 ∨ (x.1 = y.1 ∧ y.2 < x.2))) =
    some (decide (pairLt y x))
  congr 1
  rw [decide_eq_decide]
  unfold pairLt
  omega

lemma poker_go_first_max (keyf : List (List Char) → Nat × Nat) :
    ∀ (t : List (List (List Char))) (b : List (List Char)),
      (∀ x ∈ t, hand_rank x = some (some (.tup (keyf x).1 (keyf x).2))) →
      ∃ w t1 t2,
        poker_go b (some (.tup (keyf b).1 (keyf b).2)) t = some w ∧
        b :: t = t1 ++ w :: t2 ∧
        (∀ x ∈ t1, pairLt (keyf x) (keyf w)) ∧
        (∀ x ∈ b :: t, ¬ pairLt (keyf w) (keyf x)) := by
  intro t
  induction t with
  | nil =>
    intro b _
    refine ⟨b, [], [], rfl, rfl, by simp, ?_⟩
    intro x hx
    rcases List.mem_cons.mp hx with rfl | hx'
    · exact pairLt_irrefl _
    · cases hx'
  | cons h t ih =>
    intro b hall
    have hh := hall h (List.mem_cons_self _ _)
    have hall' : ∀ x ∈ t,
        hand_rank x = some (some (.tup (keyf x).1 (keyf x).2)) :=
      fun x hx => hall x (List.mem_cons_of_mem _ hx)
    have hstep : poker_go b (some (.tup (keyf b).1 (keyf b).2)) (h :: t) =
        if pairLt (keyf b) (keyf h)
        then poker_go h (some (.tup (keyf h).1 (keyf h).2)) t
        else poker_go b (some (.tup (keyf b).1 (keyf b).2)) t := by
      by_cases hlt : pairLt (keyf b) (keyf h)
      · rw [if_pos hlt]
        simp only [poker_go, hh, gtKey_tup]
        rw [decide_eq_true hlt]
      · rw [if_neg hlt]
        simp only [poker_go, hh, gtKey_tup]
        rw [decide_eq_false hlt]
    rw [hstep]
    by_cases hlt : pairLt (keyf b) (keyf h)
    · rw [if_pos hlt]
      obtain ⟨w, t1, t2, hgo, hdec, hpre, hmax⟩ := ih h hall'
      have hbw : pairLt (keyf b) (keyf w) :=
        pairLt_of_lt_of_nlt hlt (hmax h (List.mem_cons_self _ _))
      refine ⟨w, b :: t1, t2, hgo, by rw [List.cons_append, hdec], ?_, ?_⟩
      · intro x hx
        rcases List.mem_cons.mp hx with rfl | hx'
        · exact hbw
        · exact hpre x hx'
      · intro x hx
        rcases List.mem_cons.mp hx with rfl | hx'
        · exact pairLt_asymm hbw
        · exact hmax x hx'
    · rw [if_neg hlt]
      obtain ⟨w, t1, t2, hgo, hdec, hpre, hmax⟩ := ih b hall'
      cases t1 with
      | nil =>
        simp only [List.nil_append] at hdec
        injection hdec with hbw ht2
        subst hbw
        subst ht2
        refine ⟨b, [], h :: t, hgo, rfl, by simp, ?_⟩
        intro x hx
        rcases List.mem_cons.mp hx with rfl | hx'
        · exact pairLt_irrefl _
        · rcases List.mem_cons.mp hx' with rfl | hx''
          · exact hlt
          · exact hmax x (List.mem_cons_of_mem _ hx'')
      | cons b' t1' =>
        rw [List.cons_append] at hdec
        injection hdec with hbb' hrest
        subst hbb'
        have hbw : pairLt (keyf b) (keyf w) :=
          hpre b (List.mem_cons_self _ _)
        refine ⟨w, b :: h :: t1', t2, hgo, ?_, ?_, ?_⟩
        · rw [List.cons_append, List.cons_append, hrest]
        · intro x hx
          rcases List.mem_cons.mp hx with rfl | hx'
          · exact hbw
          · rcases List.mem_cons.mp hx' with rfl | hx''
            · exact pairLt_of_nlt_of_lt hlt hbw
            · exact hpre x (List.mem_cons_of_mem _ hx'')
        · intro x hx
          rcases List.mem_cons.mp hx with rfl | hx'
          · exact hmax x (List.mem_cons_self _ _)
          · rcases List.mem_cons.mp hx' with rfl | hx''
            · exact pairLt_asymm (pairLt_of_nlt_of_lt hlt hbw)
            · exact hmax x (List.mem_cons_of_mem _ hx'')

/-- Claim C7 as amended: for every NONEMPTY sequence of hands whose ranks are
all `(category, tiebreak)` pairs (no royal flush mixed in, no parse failure),
`poker` computes `hand_rank` for every hand and returns exactly the first
hand achieving the lexicographic maximum: every earlier hand ranks strictly
lower and no hand ranks higher.  (A royal flush mixed with ordinary hands, or
an empty sequence, instead raises an exception — see the counterexample.) -/
theorem C7_poker_first_max (keyf : List (List Char) → Nat × Nat)
    (hands : List (List (List Char))) (hne : hands ≠ [])
    (hall : ∀ x ∈ hands,
      hand_rank x = some (some (.tup (keyf x).1 (keyf x).2))) :
    ∃ w t1 t2, poker hands = some w ∧ hands = t1 ++ w :: t2 ∧
      (∀ x ∈ t1, pairLt (keyf x) (keyf w)) ∧
      (∀ x ∈ hands, ¬ pairLt (keyf w) (keyf x)) := by
  cases hands with
  | nil => exact absurd rfl hne
  | cons h t =>
    have hh := hall h (List.mem_cons_self _ _)
    have hstep : poker (h :: t) =
        poker_go h (some (.tup (keyf h).1 (keyf h).2)) t := by
      simp only [poker, hh]
    rw [hstep]
    exact poker_go_first_max keyf t h
      (fun x hx => hall x (List.mem_cons_of_mem _ hx))

/-- Witness for C7: the theorem applied to the spec's own example pair of
hands (four nines versus tens full), whose winner is the four-of-a-kind. -/
theorem C7_poker_first_max_witness :
    ∃ w t1 t2,
      poker [[['9', 'D'], ['9', 'H'], ['9', 'S'], ['9', 'C'], ['7', 'D']],
             [['T', 'D'], ['T', 'C'], ['T', 'H'], ['7', 'C'], ['7', 'D']]] =
        some w ∧
      [[['9', 'D'], ['9', 'H'], ['9', 'S'], ['9', 'C'], ['7', 'D']],
       [['T', 'D'], ['T', 'C'], ['T', 'H'], ['7', 'C'], ['7', 'D']]] =
        t1 ++ w :: t2 ∧
      (∀ x ∈ t1,
        pairLt
          ((fun hh =>
            if hh = [['9', 'D'], ['9', 'H'], ['9', 'S'], ['9', 'C'], ['7', 'D']]
            then ((7 : Nat), (9 : Nat)) else (6, 10)) x)
          ((fun hh =>
            if hh = [['9', 'D'], ['9', 'H'], ['9', 'S'], ['9', 'C'], ['7', 'D']]
            then ((7 : Nat), (9 : Nat)) else (6, 10)) w)) ∧
      (∀ x ∈ [[['9', 'D'], ['9', 'H'], ['9', 'S'], ['9', 'C'], ['7', 'D']],
              [['T', 'D'], ['T', 'C'], ['T', 'H'], ['7', 'C'], ['7', 'D']]],
        ¬ pairLt
          ((fun hh =>
            if hh = [['9', 'D'], ['9', 'H'], ['9', 'S'], ['9', 'C'], ['7', 'D']]
            then ((7 : Nat), (9 : Nat)) else (6, 10)) w)
          ((fun hh =>
            if hh = [['9', 'D'], ['9', 'H'], ['9', 'S'], ['9', 'C'], ['7', 'D']]
            then ((7 : Nat), (9 : Nat)) else (6, 10)) x)) :=
  C7_poker_first_max
    (fun hh =>
      if hh = [['9', 'D'], ['9', 'H'], ['9', 'S'], ['9', 'C'], ['7', 'D']]
      then ((7 : Nat), (9 : Nat)) else (6, 10))
    [[['9', 'D'], ['9', 'H'], ['9', 'S'], ['9', 'C'], ['7', 'D']],
     [['T', 'D'], ['T', 'C'], ['T', 'H'], ['7', 'C'], ['7', 'D']]]
    (by decide) (by decide)

set_option maxHeartbeats 1000000 in
lemma card_ranks_none_iff (c : Char) :
    card_ranks c = none ↔ isRankChar c = false := by
  by_cases h1 : c = 'A'
  · subst h1; decide
  by_cases h2 : c = 'K'
  · subst h2; decide
  by_cases h3 : c = 'Q'
  · subst h3; decide
  by_cases h4 : c = 'J'
  · subst h4; decide
  by_cases h5 : c = 'T'
  · subst h5; decide
  by_cases h6 : c = '9'
  · subst h6; decide
  by_cases h7 : c = '8'
  · subst h7; decide
  by_cases h8 : c = '7'
  · subst h8; decide
  by_cases h9 : c = '6'
  · subst h9; decide
  by_cases h10 : c = '5'
  · subst h10; decide
  by_cases h11 : c = '4'
  · subst h11; decide
  by_cases h12 : c = '3'
  · subst h12; decide
  by_cases h13 : c = '2'
  · subst h13; decide
  by_cases h14 : c = '1'
  · subst h14; decide
  unfold card_ranks isRankChar
  rw [if_neg h1, if_neg h2, if_neg h3, if_neg h4, if_neg h5, if_neg h6,
    if_neg h7, if_neg h8, if_neg h9, if_neg h10, if_neg h11, if_neg h12,
    if_neg h13, if_neg h14]
  constructor
  · intro _
    simp only [Bool.or_eq_false_iff, beq_eq_false_iff_ne, ne_eq]
    exact ⟨⟨⟨⟨⟨⟨⟨⟨⟨⟨⟨⟨⟨h14, h13⟩, h12⟩, h11⟩, h10⟩, h9⟩, h8⟩, h7⟩, h6⟩,
      h5⟩, h4⟩, h3⟩, h2⟩, h1⟩
  · intro _
    rfl

lemma suits_none_iff (c : Char) :
    suits c = none ↔ isSuitChar c = false := by
  by_cases h1 : c = 'C'
  · subst h1; decide
  by_cases h2 : c = 'S'
  · subst h2; decide
  by_cases h3 : c = 'D'
  · subst h3; decide
  by_cases h4 : c = 'H'
  · subst h4; decide
  unfold suits isSuitChar
  rw [if_neg h1, if_neg h2, if_neg h3, if_neg h4]
  constructor
  · intro _
    simp only [Bool.or_eq_false_iff, beq_eq_false_iff_ne, ne_eq]
    exact ⟨⟨⟨h1, h2⟩, h3⟩, h4⟩
  · intro _
    rfl

lemma parseCard_none_iff (t : List Char) :
    parseCard t = none ↔ validTokenB t = false := by
  match t with
  | [] => simp [parseCard, rankKey, validTokenB]
  | [a] => simp [parseCard, rankKey, validTokenB]
  | [a, b] =>
    cases hra : card_ranks a with
    | none =>
      have hfa : isRankChar a = false := (card_ranks_none_iff a).mp hra
      simp [parseCard, rankKey, validTokenB, hra, hfa]
    | some r =>
      have hta : isRankChar a = true := by
        cases hb : isRankChar a
        · exact absurd ((card_ranks_none_iff a).mpr hb) (by simp [hra])
        · rfl
      cases hsb : suits b with
      | none =>
        have hfb : isSuitChar b = false := (suits_none_iff b).mp hsb
        simp [parseCard, rankKey, validTokenB, hra, hsb, hta, hfb]
      | some s =>
        have htb : isSuitChar b = true := by
          cases hb : isSuitChar b
          · exact absurd ((suits_none_iff b).mpr hb) (by simp [hsb])
          · rfl
        simp [parseCard, rankKey, validTokenB, hra, hsb, hta, htb]
  | a :: b :: c :: t' =>
    simp [parseCard, rankKey, validTokenB]

lemma mapO_eq_none_iff (f : α → Option β) :
    ∀ l : List α, mapO f l = none ↔ ∃ x ∈ l, f x = none := by
  intro l
  induction l with
  | nil => simp [mapO]
  | cons x xs ih =>
    cases hfx : f x with
    | none =>
      simp only [mapO, hfx]
      constructor
      · intro _
        exact ⟨x, List.mem_cons_self _ _, hfx⟩
      · intro _
        trivial
    | some y =>
      cases hm : mapO f xs with
      | none =>
        simp only [mapO, hfx, hm]
        constructor
        · intro _
          obtain ⟨z, hz, hfz⟩ := ih.mp hm
          exact ⟨z, List.mem_cons_of_mem _ hz, hfz⟩
        · intro _
          trivial
      | some ys =>
        simp only [mapO, hfx, hm]
        constructor
        · intro hcontra
          cases hcontra
        · intro hex
          obtain ⟨z, hz, hfz⟩ := hex
          rcases List.mem_cons.mp hz with rfl | hz'
          · rw [hfx] at hfz
            cases hfz
          · have := ih.mpr ⟨z, hz', hfz⟩
            rw [hm] at this
            cases this

/-- Claim C6 as amended: parsing fails iff some token is not a recognised
rank character followed by a recognised suit character, where the rank
alphabet is the spec's mapping PLUS the source's extra entry "1"→1;
every well-formed token parses to the corresponding `(rank, suit)` card of
the mapping tables. -/
theorem C6_parse_iff_valid :
    (∀ t : List Char, parseCard t = none ↔ validTokenB t = false) ∧
    (∀ hand : List (List Char),
      scrub_hand hand = none ↔ ∃ t ∈ hand, validTokenB t = false) ∧
    (∀ r s : Char, isRankChar r = true → isSuitChar s = true →
      parseCard [r, s] = some (specRankVal r, specSuitVal s)) := by
  refine ⟨parseCard_none_iff, ?_, ?_⟩
  · intro hand
    unfold scrub_hand
    rw [Option.map_eq_none', mapO_eq_none_iff]
    exact exists_congr fun t =>
      and_congr_right fun _ => parseCard_none_iff t
  · intro r s hr hs
    simp only [isRankChar, Bool.or_eq_true, beq_iff_eq, or_assoc] at hr
    simp only [isSuitChar, Bool.or_eq_true, beq_iff_eq, or_assoc] at hs
    rcases hr with rfl | rfl | rfl | rfl | rfl | rfl | rfl | rfl | rfl |
      rfl | rfl | rfl | rfl | rfl <;>
      rcases hs with rfl | rfl | rfl | rfl <;> decide

/-- Witness for C6: the token "AS" is well formed and parses to the ace of
spades per the mapping. -/
theorem C6_parse_iff_valid_witness :
    (isRankChar 'A' = true ∧ isSuitChar 'S' = true) ∧
    parseCard ['A', 'S'] = some (specRankVal 'A', specSuitVal 'S') :=
  ⟨⟨by decide, by decide⟩,
    C6_parse_iff_valid.2.2 'A' 'S' (by decide) (by decide)⟩
